import Mathlib

/-!
Verification development for the animation-blending state machine
(`src/animation/machine.rs`).

The core code under verification is `machine.rs`.  Supporting types that
live outside the provided sources (the generational pool, handles, the
animation pose buffer and the animation container) are modelled from the
specification; each such definition carries a doc comment saying so.

All `f32` fields are modelled as `ℚ`: every claim under consideration
exercises only addition, comparison, clamping and division of times and
weights, where rational arithmetic coincides with the intended real
semantics described by the spec.
-/

namespace Machine0

/-- Modelled from the spec: a generation-checked index into a pool
("Handle: a generation-checked index into a pool, used instead of direct
references/pointers").  `machine.rs` only constructs, stores and compares
handles; the handle type itself is not under `src/`. -/
structure Handle where
  index : Nat
  generation : Nat
deriving DecidableEq, Repr

/-- Modelled from the spec: the distinguished null handle (`Handle::NONE`).
Generation `0` is the invalid generation and is never given to a live
pool record. -/
def Handle.NONE : Handle := ⟨0, 0⟩

/-- Modelled from the spec: an arena (pool) of records addressed by
generation-checked handles.  Each record stores the generation of its
slot and an optional payload; "a stale or out-of-range handle resolves to
'absent', never undefined behavior". -/
structure Pool (α : Type) where
  records : List (Nat × Option α)
deriving DecidableEq, Repr

/-- Modelled from the spec: the empty pool. -/
def Pool.empty {α : Type} : Pool α := ⟨[]⟩

/-- Modelled from the spec: handle lookup.  A handle resolves only when its
index is in range, the slot's generation matches the handle's generation
and the slot is occupied; otherwise the lookup is "absent". -/
def Pool.tryBorrow {α : Type} (p : Pool α) (h : Handle) : Option α :=
  match p.records[h.index]? with
  | some (gen, payload) => if gen = h.generation then payload else none
  | none => none

/-- Modelled from the spec: spawning a pool entry ("add pose
nodes/states/transitions to their pools (returns stable handles)").
Entries are only created during machine construction, so a free list is
never exercised; fresh slots get generation `1`. -/
def Pool.spawn {α : Type} (p : Pool α) (a : α) : Pool α × Handle :=
  (⟨p.records ++ [(1, some a)]⟩, ⟨p.records.length, 1⟩)

/-- Modelled from the spec: in-place update of every live payload
(`iter_mut` over the pool). -/
def Pool.mapAlive {α : Type} (f : α → α) (p : Pool α) : Pool α :=
  ⟨p.records.map (fun r => (r.1, r.2.map f))⟩

/-- Modelled from the spec: in-place update of the record a handle resolves
to (`borrow_mut` followed by mutation); a stale handle is a no-op. -/
def Pool.modifyAt {α : Type} (p : Pool α) (h : Handle) (f : α → α) : Pool α :=
  match p.records[h.index]? with
  | some (gen, payload) =>
      if gen = h.generation then ⟨p.records.set h.index (gen, payload.map f)⟩ else p
  | none => p

/-- Modelled from the spec: iteration over live records in pool order,
paired with the handle of each record (`pair_iter_mut`). -/
def Pool.pairList {α : Type} (p : Pool α) : List (Handle × α) :=
  p.records.enum.filterMap
    (fun r =>
      match r with
      | (i, (gen, some a)) => some (⟨i, gen⟩, a)
      | (_, (_, none)) => none)

/-- Modelled from the spec: a pose is "a per-channel snapshot of
position/rotation/scale"; we model it as a channel-indexed family of
rational values. -/
def AnimationPose : Type := Nat → ℚ

/-- Modelled from the spec: the reset / identity-zero pose that
`AnimationPose::reset` produces. -/
def AnimationPose.reset_pose : AnimationPose := fun _ => 0

/-- Modelled from the spec: weighted accumulation of `other` into `self`
(`AnimationPose::blend_with`): "accumulate it into the buffer with that
weight", channel-wise. -/
def AnimationPose.blend_with (self other : AnimationPose) (weight : ℚ) : AnimationPose :=
  fun i => self i + weight * other i

/-- Modelled from the spec: an external animation clip; the core only reads
"the current sampled pose" for a clip handle. -/
structure Animation where
  pose : AnimationPose

/-- Modelled from the spec: the external clip source, addressable by stable
handle. -/
def AnimationContainer : Type := Pool Animation

/-- Modelled from the spec: reading a clip's current sampled pose; a stale
clip handle contributes no pose (the neutral reset pose). -/
def AnimationContainer.getPose (c : AnimationContainer) (h : Handle) : AnimationPose :=
  match Pool.tryBorrow c h with
  | some a => a.pose
  | none => AnimationPose.reset_pose

/-- `Parameter` from `machine.rs`: tagged union `Weight(f32) | Rule(bool)`. -/
inductive Parameter where
  | Weight (value : ℚ)
  | Rule (value : Bool)
deriving DecidableEq, Repr

/-- `ParameterContainer` from `machine.rs` (`HashMap<String, Parameter>`),
modelled by its lookup function: the map sending each name to the
parameter stored under it, if any. -/
def ParameterContainer : Type := String → Option Parameter

/-- The empty parameter store. -/
def ParameterContainer.empty : ParameterContainer := fun _ => none

/-- `PoseWeight` from `machine.rs`: `Constant(f32) | Parameter(String)`. -/
inductive PoseWeight where
  | Constant (value : ℚ)
  | Parameter (name : String)
deriving DecidableEq, Repr

/-- `PoseWeight::from_id` from `machine.rs` (lines 200-206): maps the
persisted discriminant back to a variant; `0 => Parameter`,
`1 => Constant`, anything else is a load error. -/
def PoseWeight.from_id (id : Int) : Except String PoseWeight :=
  match id with
  | 0 => Except.ok (PoseWeight.Parameter "")
  | 1 => Except.ok (PoseWeight.Constant 0)
  | _ => Except.error "Invalid pose weight id"

/-- `PoseWeight::id` from `machine.rs` (lines 208-213): the discriminant
written first during serialization; `Constant => 0`, `Parameter => 1`. -/
def PoseWeight.id : PoseWeight → Int
  | PoseWeight.Constant _ => 0
  | PoseWeight.Parameter _ => 1

/-- The variant-dispatch part of the `PoseWeight` visit round-trip: saving
writes `self.id()` first, and loading replaces `self` with
`from_id(id)` before reading variant fields
(`PoseWeight::visit`, lines 216-233). -/
def PoseWeight.reload (w : PoseWeight) : Except String PoseWeight :=
  PoseWeight.from_id w.id

/-- Tells whether two `PoseWeight` values are of the same variant. -/
def PoseWeight.sameVariant : PoseWeight → PoseWeight → Bool
  | PoseWeight.Constant _, PoseWeight.Constant _ => true
  | PoseWeight.Parameter _, PoseWeight.Parameter _ => true
  | _, _ => false

/-- `BlendPose` from `machine.rs`: a weight source paired with the handle
of the child pose node. -/
structure BlendPose where
  weight : PoseWeight
  pose_source : Handle
deriving DecidableEq, Repr

/-- `PoseNode` from `machine.rs`: a leaf that plays a clip, or a weighted
blend of child nodes.  The `RefCell` output-pose buffers only cache the
value the evaluator returns within a tick, so evaluation is modelled as
the pure function of the buffers' final contents. -/
inductive PoseNode where
  | PlayAnimation (animation : Handle)
  | BlendAnimations (pose_sources : List BlendPose)

/-- Weight resolution in `BlendAnimation::eval_pose` (lines 361-374): a
constant is used as-is; a named parameter resolves to its `Weight` value,
and to `0.0` when the name is absent or holds a `Rule`. -/
def resolveWeight (params : ParameterContainer) : PoseWeight → ℚ
  | PoseWeight.Constant value => value
  | PoseWeight.Parameter param_id =>
      match params param_id with
      | some (Parameter.Weight weight) => weight
      | some (Parameter.Rule _) => 0
      | none => 0

/-- `eval_pose` over pose nodes (`EvaluatePose` impls, lines 348-387).
`PlayAnimation` copies the clip's current pose; `BlendAnimations` resets
its buffer and folds over its children in list order, skipping a child
whose handle does not resolve (no pose contribution) and otherwise
accumulating the child's pose with its resolved weight.  The Rust
recursion is unbounded (acyclicity is a caller contract); the model
recurses on explicit fuel, which any acyclic graph never exhausts when
the fuel is the pool size. -/
def PoseNode.eval_pose (nodes : Pool PoseNode) (params : ParameterContainer)
    (animations : AnimationContainer) : Nat → PoseNode → AnimationPose
  | _, PoseNode.PlayAnimation animation => AnimationContainer.getPose animations animation
  | 0, PoseNode.BlendAnimations _ => AnimationPose.reset_pose
  | fuel + 1, PoseNode.BlendAnimations pose_sources =>
      pose_sources.foldl
        (fun acc blend_pose =>
          let weight := resolveWeight params blend_pose.weight
          match Pool.tryBorrow nodes blend_pose.pose_source with
          | some child => acc.blend_with (PoseNode.eval_pose nodes params animations fuel child) weight
          | none => acc)
        AnimationPose.reset_pose

/-- `State` from `machine.rs`: a named wrapper of one pose-graph root with
a cached pose. -/
structure State where
  name : String
  root : Handle
  pose : AnimationPose

/-- `State::new` from `machine.rs`. -/
def State.new (name : String) (root : Handle) : State :=
  ⟨name, root, AnimationPose.reset_pose⟩

/-- `State::update` (lines 398-403): reset the cached pose, then copy the
evaluation of the root node into it; a stale root handle leaves the pose
at its reset value.  The evaluation fuel is the node-pool size, enough
for any acyclic graph. -/
def State.update (nodes : Pool PoseNode) (params : ParameterContainer)
    (animations : AnimationContainer) (s : State) : State :=
  { s with
    pose :=
      match Pool.tryBorrow nodes s.root with
      | some node => PoseNode.eval_pose nodes params animations nodes.records.length node
      | none => AnimationPose.reset_pose }

/-- `Transition` from `machine.rs`. -/
structure Transition where
  name : String
  transition_time : ℚ
  elapsed_time : ℚ
  src : Handle
  dest : Handle
  rule : String
  blend_factor : ℚ
deriving DecidableEq, Repr

/-- `Transition::new` (lines 448-458). -/
def Transition.new (name : String) (src dest : Handle) (time : ℚ) (rule : String) : Transition :=
  ⟨name, time, 0, src, dest, rule, 0⟩

/-- `Transition::reset` (lines 460-463). -/
def Transition.reset (t : Transition) : Transition :=
  { t with elapsed_time := 0, blend_factor := 0 }

/-- `Transition::update` (lines 465-471): accumulate `dt`, clamp to the
duration, recompute the blend factor as `elapsed / duration`. -/
def Transition.update (t : Transition) (dt : ℚ) : Transition :=
  let elapsed := t.elapsed_time + dt
  let elapsed := if elapsed > t.transition_time then t.transition_time else elapsed
  { t with elapsed_time := elapsed, blend_factor := elapsed / t.transition_time }

/-- `Transition::is_done` (lines 473-475): exact equality of the duration
with the accumulated elapsed time. -/
def Transition.is_done (t : Transition) : Bool :=
  decide (t.transition_time = t.elapsed_time)

/-- `Event` from `machine.rs`: the lifecycle event vocabulary. -/
inductive Event where
  | StateEnter (state : Handle)
  | StateLeave (state : Handle)
  | ActiveStateChanged (state : Handle)
deriving DecidableEq, Repr

/-- `Machine` from `machine.rs`: pools, the parameter store, the active
pointers, the final-pose buffer and the FIFO event queue
(the `VecDeque` is modelled as a list with its front at the head). -/
structure Machine where
  nodes : Pool PoseNode
  states : Pool State
  transitions : Pool Transition
  final_pose : AnimationPose
  active_state : Handle
  active_transition : Handle
  parameters : ParameterContainer
  events : List Event

/-- `Machine::new` (lines 491-502): everything empty / null. -/
def Machine.new : Machine :=
  ⟨Pool.empty, Pool.empty, Pool.empty, AnimationPose.reset_pose,
    Handle.NONE, Handle.NONE, ParameterContainer.empty, []⟩

/-- `Machine::add_node` (lines 504-506). -/
def Machine.add_node (m : Machine) (node : PoseNode) : Machine × Handle :=
  let (pool, h) := m.nodes.spawn node
  ({ m with nodes := pool }, h)

/-- `Machine::add_parameter` (lines 508-510): insert or overwrite. -/
def Machine.add_parameter (m : Machine) (id : String) (parameter : Parameter) : Machine :=
  { m with parameters := fun n => if n = id then some parameter else m.parameters n }

/-- `Machine::set_parameter` (lines 512-516): overwrite only when the name
is already present; otherwise leave the store untouched. -/
def Machine.set_parameter (m : Machine) (id : String) (parameter : Parameter) : Machine :=
  match m.parameters id with
  | some _ => { m with parameters := fun n => if n = id then some parameter else m.parameters n }
  | none => m

/-- `Machine::add_state` (lines 518-520). -/
def Machine.add_state (m : Machine) (state : State) : Machine × Handle :=
  let (pool, h) := m.states.spawn state
  ({ m with states := pool }, h)

/-- `Machine::add_transition` (lines 522-524). -/
def Machine.add_transition (m : Machine) (transition : Transition) : Machine :=
  { m with transitions := (m.transitions.spawn transition).1 }

/-- The capacity bound of the event queue (line 531). -/
def eventQueueCap : Nat := 2048

/-- The queue part of `Machine::push_event` (lines 530-534): enqueue at the
back only while the length is strictly below the capacity, silently drop
otherwise. -/
def pushEventQueue (q : List Event) (event : Event) : List Event :=
  if q.length < eventQueueCap then q ++ [event] else q

/-- `Machine::push_event` (lines 530-534). -/
def Machine.push_event (m : Machine) (event : Event) : Machine :=
  { m with events := pushEventQueue m.events event }

/-- `Machine::pop_event` (lines 536-538): dequeue from the front. -/
def Machine.pop_event (m : Machine) : Option Event × Machine :=
  match m.events with
  | [] => (none, m)
  | e :: rest => (some e, { m with events := rest })

/-- The gating test of the transition-selection scan in
`Machine::evaluate_pose` (lines 550-565): a transition qualifies when its
destination differs from the currently active state and its named rule
parameter currently holds `Rule(true)`; a missing name or a `Weight`
parameter never qualifies.  The transition's `src` field is not read. -/
def transitionFires (params : ParameterContainer) (activeState : Handle)
    (t : Transition) : Bool :=
  decide (t.dest ≠ activeState) &&
    (match params t.rule with
     | some (Parameter.Rule active) => active
     | some (Parameter.Weight _) => false
     | none => false)

/-- The transition-selection scan (lines 550-565): the first qualifying
transition in pool order, with its handle. -/
def findTransition (params : ParameterContainer) (activeState : Handle)
    (pairs : List (Handle × Transition)) : Option (Handle × Transition) :=
  pairs.find? (fun p => transitionFires params activeState p.2)

/-- Step 3 of `Machine::evaluate_pose` (lines 548-566): when no transition
is active, scan the pool; on a hit set `active_transition` to the found
handle and immediately set `active_state` to the destination. -/
def Machine.selectTransition (m : Machine) : Machine :=
  if m.active_transition = Handle.NONE then
    match findTransition m.parameters m.active_state m.transitions.pairList with
    | some (handle, transition) =>
        { m with active_transition := handle, active_state := transition.dest }
    | none => m
  else m

/-- `Machine::evaluate_pose` (lines 540-590).  Steps: reset the final
pose; update every state; select a transition when none is active; when a
transition is active, blend source and destination poses by the blend
factor, advance the transition by `dt` and, when done, reset it and clear
`active_transition`; otherwise copy the active state's pose.  Stale
handles resolve to absent and degrade to no-ops (spec's runtime-lookup
policy); the machine is returned with its updated `final_pose` buffer. -/
def Machine.evaluate_pose (m : Machine) (animations : AnimationContainer) (dt : ℚ) : Machine :=
  let m1 := { m with
    final_pose := AnimationPose.reset_pose,
    states := m.states.mapAlive (State.update m.nodes m.parameters animations) }
  let m2 := m1.selectTransition
  if m2.active_transition ≠ Handle.NONE then
    match m2.transitions.tryBorrow m2.active_transition with
    | some transition =>
        let srcPose :=
          match m2.states.tryBorrow transition.src with
          | some s => s.pose
          | none => AnimationPose.reset_pose
        let destPose :=
          match m2.states.tryBorrow transition.dest with
          | some s => s.pose
          | none => AnimationPose.reset_pose
        let blended :=
          (AnimationPose.reset_pose.blend_with srcPose (1 - transition.blend_factor)).blend_with
            destPose transition.blend_factor
        let advanced := transition.update dt
        { m2 with
          final_pose := blended,
          transitions := m2.transitions.modifyAt m2.active_transition
            (fun t =>
              let t1 := t.update dt
              if t1.is_done then t1.reset else t1),
          active_transition := if advanced.is_done then Handle.NONE else m2.active_transition }
    | none => m2
  else if m2.active_state ≠ Handle.NONE then
    match m2.states.tryBorrow m2.active_state with
    | some state => { m2 with final_pose := state.pose }
    | none => m2
  else
    m2

/-- Draining the event queue by repeated `pop_event`, stopping at `none`;
the fuel is the queue length, so the drain is total. -/
def Machine.drainAux : Nat → Machine → List Event
  | 0, _ => []
  | n + 1, m =>
      match m.pop_event with
      | (none, _) => []
      | (some e, m1) => e :: Machine.drainAux n m1

/-- All events retrievable from the machine, in `pop_event` order. -/
def Machine.drain (m : Machine) : List Event :=
  Machine.drainAux m.events.length m

/-! ### Concrete fixtures used to evaluate the theorems on closed inputs -/

/-- A parameter store holding a single rule parameter `"r"` set to
`true`. -/
def exParams : ParameterContainer :=
  fun n => if n = "r" then some (Parameter.Rule true) else none

/-- A transition gated by the absent rule name `"no"`; its scan test never
fires. -/
def exTransition0 : Transition := Transition.new "t0" ⟨7, 7⟩ ⟨2, 1⟩ 1 "no"

/-- A transition gated by `"r"` with destination `⟨3, 1⟩`; under
`exParams` its scan test fires. -/
def exTransition1 : Transition := Transition.new "t1" ⟨5, 5⟩ ⟨3, 1⟩ 1 "r"

/-- A machine with two pooled transitions and no active transition, ready
for the selection scan. -/
def exScanMachine : Machine :=
  ⟨Pool.empty, Pool.empty, ⟨[(1, some exTransition0), (1, some exTransition1)]⟩,
    AnimationPose.reset_pose, Handle.NONE, Handle.NONE, exParams, []⟩

/-- A duration-2 transition already three-quarters done (elapsed `3/2`). -/
def exActiveTransition : Transition :=
  { Transition.new "t" ⟨5, 5⟩ ⟨6, 6⟩ 2 "r" with elapsed_time := 3 / 2, blend_factor := 3 / 4 }

/-- A machine whose `active_transition` points at `exActiveTransition` in
its transition pool. -/
def exActiveMachine : Machine :=
  ⟨Pool.empty, Pool.empty, ⟨[(1, some exActiveTransition)]⟩,
    AnimationPose.reset_pose, Handle.NONE, ⟨0, 1⟩, ParameterContainer.empty, []⟩

/-- A duration-0 transition gated by `"r"`. -/
def exZeroTransition : Transition := Transition.new "z" ⟨5, 5⟩ ⟨3, 1⟩ 0 "r"

/-- A machine with `exZeroTransition` pooled, no active transition, and the
rule `"r"` true, so the scan activates the duration-0 transition. -/
def exZeroMachine : Machine :=
  ⟨Pool.empty, Pool.empty, ⟨[(1, some exZeroTransition)]⟩,
    AnimationPose.reset_pose, Handle.NONE, Handle.NONE, exParams, []⟩

/-! ### Helper lemmas -/

theorem drainAux_of_events_eq : ∀ (q : List Event) (m : Machine),
    m.events = q → Machine.drainAux q.length m = q := by
  intro q
  induction q with
  | nil => intro m _; rfl
  | cons e rest ih =>
      intro m hm
      simp only [List.length_cons, Machine.drainAux, Machine.pop_event, hm]
      exact congrArg (e :: ·) (ih _ rfl)

theorem Machine.drain_eq_events (m : Machine) : m.drain = m.events :=
  drainAux_of_events_eq m.events m rfl

theorem events_foldl_push : ∀ (es : List Event) (m : Machine),
    (es.foldl Machine.push_event m).events = es.foldl pushEventQueue m.events := by
  intro es
  induction es with
  | nil => intro m; rfl
  | cons e rest ih =>
      intro m
      simp only [List.foldl_cons]
      exact ih (m.push_event e)

theorem foldl_push_only_events : ∀ (es : List Event) (m : Machine),
    (es.foldl Machine.push_event m) =
      { m with events := es.foldl pushEventQueue m.events } := by
  intro es
  induction es with
  | nil => intro m; rfl
  | cons e rest ih =>
      intro m
      simp only [List.foldl_cons]
      exact ih (m.push_event e)

theorem foldl_pushEventQueue_eq : ∀ (es q : List Event), q.length ≤ eventQueueCap →
    es.foldl pushEventQueue q = q ++ es.take (eventQueueCap - q.length) := by
  intro es
  induction es with
  | nil => intro q _; simp
  | cons e rest ih =>
      intro q hq
      simp only [List.foldl_cons]
      by_cases hlt : q.length < eventQueueCap
      · have hpush : pushEventQueue q e = q ++ [e] := by
          simp [pushEventQueue, hlt]
        rw [hpush, ih (q ++ [e]) (by simpa using hlt)]
        have hk : eventQueueCap - q.length = (eventQueueCap - (q.length + 1)) + 1 := by
          omega
        simp only [List.length_append, List.length_cons, List.length_nil, hk,
          List.take_succ_cons]
        simp
      · have hstop : pushEventQueue q e = q := by
          simp [pushEventQueue, hlt]
        have hzero : eventQueueCap - q.length = 0 := by omega
        rw [hstop, ih q hq, hzero]
        simp


theorem Pool.tryBorrow_modifyAt_self {α : Type} (p : Pool α) (h : Handle) (f : α → α) :
    (p.modifyAt h f).tryBorrow h = (p.tryBorrow h).map f := by
  unfold Pool.modifyAt Pool.tryBorrow
  cases hget : p.records[h.index]? with
  | none => simp [hget]
  | some r =>
      obtain ⟨gen, payload⟩ := r
      by_cases hgen : gen = h.generation
      · subst hgen
        have hidx : h.index < p.records.length := (List.getElem?_eq_some.mp hget).1
        have hset : (p.records.set h.index (h.generation, payload.map f))[h.index]?
            = some (h.generation, payload.map f) := List.getElem?_set_self hidx
        simp [hget, hset]
      · simp [hgen, hget]

theorem Pool.tryBorrow_of_mem_pairList {α : Type} (p : Pool α) (h : Handle) (a : α)
    (hmem : (h, a) ∈ p.pairList) : p.tryBorrow h = some a := by
  unfold Pool.pairList at hmem
  obtain ⟨r, hr, hfm⟩ := List.mem_filterMap.mp hmem
  obtain ⟨i, gen, payload⟩ := r
  cases payload with
  | none => simp at hfm
  | some b =>
      simp only [Option.some.injEq, Prod.mk.injEq] at hfm
      obtain ⟨hh, hab⟩ := hfm
      have hget : p.records[i]? = some (gen, some b) :=
        (List.mk_mem_enum_iff_getElem?).mp hr
      subst hab
      rw [← hh]
      unfold Pool.tryBorrow
      simp [hget]

theorem pushEventQueue_from_empty (es : List Event) :
    es.foldl pushEventQueue [] = es.take 2048 := by
  have h := foldl_pushEventQueue_eq es [] (by simp)
  simpa [eventQueueCap] using h

/-! ### Claims -/

/-- Claim C2: the `PoseWeight` visit round-trip does not preserve the
variant: `id` maps `Constant` to discriminant `0` and `Parameter` to `1`,
while `from_id` dispatches `0` to `Parameter` and `1` to `Constant`, so a
save/load cycle swaps the two variants (evaluated here at the concrete
failing inputs `Constant 5` and `Parameter "x"`). -/
theorem C2_poseweight_reload_swaps_variant :
    PoseWeight.reload (PoseWeight.Constant 5) = Except.ok (PoseWeight.Parameter "") ∧
    PoseWeight.sameVariant (PoseWeight.Constant 5) (PoseWeight.Parameter "") = false ∧
    PoseWeight.reload (PoseWeight.Parameter "x") = Except.ok (PoseWeight.Constant 0) ∧
    PoseWeight.sameVariant (PoseWeight.Parameter "x") (PoseWeight.Constant 0) = false :=
  ⟨rfl, rfl, rfl, rfl⟩

/-- Claim C7: the event queue is a capacity-2048 FIFO: pushing any list of
events onto a freshly constructed machine retains exactly the oldest 2048
in push order (later pushes are silently dropped), and draining the queue
through `pop_event` returns exactly those events in the same order. -/
theorem C7_event_queue_capacity_fifo (es : List Event) :
    (es.foldl Machine.push_event Machine.new).events = es.take 2048 ∧
    (es.foldl Machine.push_event Machine.new).drain = es.take 2048 := by
  have hev : (es.foldl Machine.push_event Machine.new).events = es.take 2048 := by
    rw [events_foldl_push]
    exact pushEventQueue_from_empty es
  exact ⟨hev, by rw [Machine.drain_eq_events, hev]⟩

/-- Claim C8: a blend weight naming a parameter that is absent from the
store, or that holds a `Rule` instead of a `Weight`, resolves to exactly
`0`; and accumulating a pose with weight `0` contributes nothing to the
blend buffer. -/
theorem C8_missing_or_wrong_kind_weight_is_zero (params : ParameterContainer)
    (name : String) (b : Bool) :
    (params name = none → resolveWeight params (PoseWeight.Parameter name) = 0) ∧
    (params name = some (Parameter.Rule b) →
      resolveWeight params (PoseWeight.Parameter name) = 0) ∧
    (∀ pose other : AnimationPose, pose.blend_with other 0 = pose) := by
  refine ⟨?_, ?_, ?_⟩
  · intro h
    simp [resolveWeight, h]
  · intro h
    simp [resolveWeight, h]
  · intro pose other
    funext i
    simp [AnimationPose.blend_with]

/-- Claim C8 witness: concrete instances — a store holding only a rule
parameter `"r"` resolves both the missing name `"w"` and the wrong-kind
name `"r"` to weight `0`, and a weight-0 blend leaves the pose as it
was. -/
theorem C8_missing_or_wrong_kind_weight_is_zero_witness :
    resolveWeight ParameterContainer.empty (PoseWeight.Parameter "w") = 0 ∧
    resolveWeight (fun n => if n = "r" then some (Parameter.Rule true) else none)
      (PoseWeight.Parameter "r") = 0 ∧
    AnimationPose.reset_pose.blend_with (fun i => (i : ℚ)) 0 = AnimationPose.reset_pose :=
  ⟨(C8_missing_or_wrong_kind_weight_is_zero ParameterContainer.empty "w" true).1 rfl,
   ((C8_missing_or_wrong_kind_weight_is_zero
      (fun n => if n = "r" then some (Parameter.Rule true) else none) "r" true).2.1 (by rfl)),
   (C8_missing_or_wrong_kind_weight_is_zero ParameterContainer.empty "w" true).2.2
      AnimationPose.reset_pose (fun i => (i : ℚ))⟩

/-- Claim C9: `set_parameter` on a name never inserted leaves the machine
(and in particular its parameter store) entirely unchanged, while on an
existing name it overwrites that entry and touches no other name. -/
theorem C9_set_parameter_semantics (m : Machine) (id : String) (v : Parameter) :
    (m.parameters id = none → m.set_parameter id v = m) ∧
    (∀ q, m.parameters id = some q →
      (m.set_parameter id v).parameters id = some v ∧
      ∀ n, n ≠ id → (m.set_parameter id v).parameters n = m.parameters n) := by
  constructor
  · intro h
    unfold Machine.set_parameter
    rw [h]
  · intro q h
    unfold Machine.set_parameter
    rw [h]
    refine ⟨by simp, ?_⟩
    intro n hn
    simp [hn]

/-- Claim C9 witness: on the fresh machine `set_parameter` is the
identity, and after `add_parameter "x"` a `set_parameter "x"` overwrites
the stored value. -/
theorem C9_set_parameter_semantics_witness :
    Machine.new.set_parameter "x" (Parameter.Weight 1) = Machine.new ∧
    ((Machine.new.add_parameter "x" (Parameter.Rule false)).set_parameter "x"
      (Parameter.Weight 1)).parameters "x" = some (Parameter.Weight 1) :=
  ⟨(C9_set_parameter_semantics Machine.new "x" (Parameter.Weight 1)).1 rfl,
   ((C9_set_parameter_semantics (Machine.new.add_parameter "x" (Parameter.Rule false)) "x"
      (Parameter.Weight 1)).2 (Parameter.Rule false) (by rfl)).1⟩

/-- Claim C5: on any machine whose state pool and transition pool are both
empty, a tick is a no-op: the returned final pose is the neutral reset
pose, and the active pointers and the event queue are untouched (the
model is total, so the tick always completes). -/
theorem C5_empty_machine_neutral (m : Machine) (animations : AnimationContainer) (dt : ℚ)
    (hs : m.states.records = []) (ht : m.transitions.records = []) :
    (m.evaluate_pose animations dt).final_pose = AnimationPose.reset_pose ∧
    (m.evaluate_pose animations dt).active_state = m.active_state ∧
    (m.evaluate_pose animations dt).active_transition = m.active_transition ∧
    (m.evaluate_pose animations dt).events = m.events := by
  obtain ⟨nodes, states, transitions, fp, act_s, act_t, prms, evs⟩ := m
  obtain ⟨srecords⟩ := states
  obtain ⟨trecords⟩ := transitions
  simp only at hs ht
  subst hs ht
  simp only [Machine.evaluate_pose, Machine.selectTransition, findTransition, Pool.mapAlive,
    Pool.pairList, Pool.tryBorrow, List.map_nil, List.enum_nil, List.filterMap_nil,
    List.find?_nil, List.getElem?_nil]
  split <;> split <;> simp_all

/-- Claim C5 witness: the freshly constructed machine with an empty clip
source ticks to the neutral pose with nothing else changed. -/
theorem C5_empty_machine_neutral_witness :
    (Machine.new.evaluate_pose Pool.empty 1).final_pose = AnimationPose.reset_pose ∧
    (Machine.new.evaluate_pose Pool.empty 1).active_state = Machine.new.active_state ∧
    (Machine.new.evaluate_pose Pool.empty 1).active_transition = Machine.new.active_transition ∧
    (Machine.new.evaluate_pose Pool.empty 1).events = Machine.new.events :=
  C5_empty_machine_neutral Machine.new Pool.empty 1 rfl rfl

/-- Claim C1: stale or out-of-range handles degrade to neutral defaults in
every tick-time evaluation: a blend child whose pose-node handle does not
resolve contributes nothing (the blend equals the same blend without that
child), a state whose root handle does not resolve updates to the neutral
reset pose, and a play node whose animation handle does not resolve
evaluates to the neutral reset pose; the evaluator itself is total, so
the tick always completes with a pose. -/
theorem C1_stale_handle_resolves_neutral :
    (∀ (nodes : Pool PoseNode) (params : ParameterContainer)
        (animations : AnimationContainer) (fuel : Nat)
        (pre post : List BlendPose) (bp : BlendPose),
      nodes.tryBorrow bp.pose_source = none →
      PoseNode.eval_pose nodes params animations (fuel + 1)
          (PoseNode.BlendAnimations (pre ++ bp :: post)) =
        PoseNode.eval_pose nodes params animations (fuel + 1)
          (PoseNode.BlendAnimations (pre ++ post))) ∧
    (∀ (nodes : Pool PoseNode) (params : ParameterContainer)
        (animations : AnimationContainer) (s : State),
      nodes.tryBorrow s.root = none →
      (State.update nodes params animations s).pose = AnimationPose.reset_pose) ∧
    (∀ (nodes : Pool PoseNode) (params : ParameterContainer)
        (animations : AnimationContainer) (fuel : Nat) (a : Handle),
      Pool.tryBorrow animations a = none →
      PoseNode.eval_pose nodes params animations fuel (PoseNode.PlayAnimation a) =
        AnimationPose.reset_pose) := by
  refine ⟨?_, ?_, ?_⟩
  · intro nodes params animations fuel pre post bp h
    simp only [PoseNode.eval_pose, List.foldl_append, List.foldl_cons, h]
  · intro nodes params animations s h
    simp [State.update, h]
  · intro nodes params animations fuel a h
    cases fuel <;> simp [PoseNode.eval_pose, AnimationContainer.getPose, h]

/-- Claim C1 witness: with empty pools every handle is stale; the three
neutral-default behaviours evaluated at the concrete handle `⟨0, 1⟩`. -/
theorem C1_stale_handle_resolves_neutral_witness :
    PoseNode.eval_pose Pool.empty ParameterContainer.empty Pool.empty 1
        (PoseNode.BlendAnimations ([] ++ ⟨PoseWeight.Constant 1, ⟨0, 1⟩⟩ :: [])) =
      PoseNode.eval_pose Pool.empty ParameterContainer.empty Pool.empty 1
        (PoseNode.BlendAnimations ([] ++ [])) ∧
    (State.update Pool.empty ParameterContainer.empty Pool.empty
        (State.new "s" ⟨0, 1⟩)).pose = AnimationPose.reset_pose ∧
    PoseNode.eval_pose Pool.empty ParameterContainer.empty Pool.empty 0
        (PoseNode.PlayAnimation ⟨0, 1⟩) = AnimationPose.reset_pose :=
  ⟨C1_stale_handle_resolves_neutral.1 Pool.empty ParameterContainer.empty Pool.empty 0
      [] [] ⟨PoseWeight.Constant 1, ⟨0, 1⟩⟩ rfl,
   C1_stale_handle_resolves_neutral.2.1 Pool.empty ParameterContainer.empty Pool.empty
      (State.new "s" ⟨0, 1⟩) rfl,
   C1_stale_handle_resolves_neutral.2.2 Pool.empty ParameterContainer.empty Pool.empty 0
      ⟨0, 1⟩ rfl⟩

/-- Claim C6: a blend node over two children with constant weights over
two play-animation leaves evaluates, channel-wise, to the literal
weighted sum of the two leaf poses; the weights enter the formula as
given, with no renormalization and no requirement that they sum to 1. -/
theorem C6_blend_is_literal_weighted_sum
    (nodes : Pool PoseNode) (params : ParameterContainer) (animations : AnimationContainer)
    (fuel : Nat) (hA hB aA aB : Handle) (A B : AnimationPose) (w1 w2 : ℚ)
    (h1 : nodes.tryBorrow hA = some (PoseNode.PlayAnimation aA))
    (h2 : nodes.tryBorrow hB = some (PoseNode.PlayAnimation aB))
    (h3 : Pool.tryBorrow animations aA = some ⟨A⟩)
    (h4 : Pool.tryBorrow animations aB = some ⟨B⟩) :
    ∀ i, PoseNode.eval_pose nodes params animations (fuel + 1)
        (PoseNode.BlendAnimations
          [⟨PoseWeight.Constant w1, hA⟩, ⟨PoseWeight.Constant w2, hB⟩]) i
      = w1 * A i + w2 * B i := by
  intro i
  simp only [PoseNode.eval_pose, List.foldl_cons, List.foldl_nil, h1, h2,
    AnimationContainer.getPose, h3, h4, resolveWeight, AnimationPose.blend_with,
    AnimationPose.reset_pose]
  ring

/-- Claim C6 witness: weights `3/4` and `1/4` over the constant leaf poses
`4` and `40` blend to `3/4 * 4 + 1/4 * 40 = 13` on every channel,
evaluated here at channel `0`. -/
theorem C6_blend_is_literal_weighted_sum_witness :
    PoseNode.eval_pose
        ⟨[(1, some (PoseNode.PlayAnimation ⟨0, 1⟩)), (1, some (PoseNode.PlayAnimation ⟨1, 1⟩))]⟩
        ParameterContainer.empty
        ⟨[(1, some ⟨fun _ => (4 : ℚ)⟩), (1, some ⟨fun _ => (40 : ℚ)⟩)]⟩ 1
        (PoseNode.BlendAnimations
          [⟨PoseWeight.Constant (3 / 4), ⟨0, 1⟩⟩, ⟨PoseWeight.Constant (1 / 4), ⟨1, 1⟩⟩]) 0
      = 13 := by
  have h := C6_blend_is_literal_weighted_sum
    ⟨[(1, some (PoseNode.PlayAnimation ⟨0, 1⟩)), (1, some (PoseNode.PlayAnimation ⟨1, 1⟩))]⟩
    ParameterContainer.empty
    ⟨[(1, some ⟨fun _ => (4 : ℚ)⟩), (1, some ⟨fun _ => (40 : ℚ)⟩)]⟩ 0
    ⟨0, 1⟩ ⟨1, 1⟩ ⟨0, 1⟩ ⟨1, 1⟩ (fun _ => (4 : ℚ)) (fun _ => (40 : ℚ)) (3 / 4) (1 / 4)
    rfl rfl rfl rfl 0
  norm_num at h
  exact h

/-- Claim C3: transition selection.  The scan's gating test holds exactly
when the destination differs from the active state and the named rule
parameter reads `Rule true`; the scan returns the first qualifying
transition in pool order; activating it sets `active_transition` to its
handle and immediately sets `active_state` to its destination; and the
scan never reads a transition's recorded source state (replacing every
`src` field changes nothing about the selection). -/
theorem C3_transition_selection
    (params : ParameterContainer) (activeState : Handle)
    (pairs : List (Handle × Transition)) :
    (∀ t : Transition, transitionFires params activeState t = true ↔
      (t.dest ≠ activeState ∧ params t.rule = some (Parameter.Rule true))) ∧
    (∀ h tr, findTransition params activeState pairs = some (h, tr) →
      transitionFires params activeState tr = true ∧
      ∃ l1 l2, pairs = l1 ++ (h, tr) :: l2 ∧
        ∀ p ∈ l1, transitionFires params activeState p.2 = false) ∧
    (∀ (m : Machine) (h : Handle) (tr : Transition),
      m.active_transition = Handle.NONE →
      findTransition m.parameters m.active_state m.transitions.pairList = some (h, tr) →
      m.selectTransition.active_transition = h ∧
      m.selectTransition.active_state = tr.dest) ∧
    (∀ f : Handle × Transition → Handle,
      findTransition params activeState
          (pairs.map (fun p => (p.1, { p.2 with src := f p }))) =
        (findTransition params activeState pairs).map
          (fun p => (p.1, { p.2 with src := f p }))) := by
  refine ⟨?_, ?_, ?_, ?_⟩
  · intro t
    unfold transitionFires
    cases hr : params t.rule with
    | none => simp
    | some p =>
        cases p with
        | Weight w => simp
        | Rule b => cases b <;> simp
  · intro h tr hf
    unfold findTransition at hf
    rw [List.find?_eq_some] at hf
    obtain ⟨hfires, l1, l2, heq, hall⟩ := hf
    refine ⟨hfires, l1, l2, heq, ?_⟩
    intro p hp
    simpa using hall p hp
  · intro m h tr hnone hfind
    unfold Machine.selectTransition
    rw [if_pos hnone, hfind]
    exact ⟨rfl, rfl⟩
  · intro f
    induction pairs with
    | nil => simp [findTransition]
    | cons p ps ih =>
        obtain ⟨ph, pt⟩ := p
        have hfeq : transitionFires params activeState { pt with src := f (ph, pt) } =
            transitionFires params activeState pt := rfl
        unfold findTransition at ih ⊢
        cases hfire : transitionFires params activeState pt with
        | true =>
            simp [List.find?_cons, hfeq, hfire]
        | false =>
            simp only [List.map_cons, List.find?_cons, hfeq, hfire]
            exact ih

/-- Claim C3 witness: on the concrete two-transition machine the scan
skips the non-firing transition and picks the pool's second entry, sets
`active_transition` to its handle `⟨1, 1⟩` and `active_state` to its
destination, and that transition's gating test indeed fires. -/
theorem C3_transition_selection_witness :
    exScanMachine.selectTransition.active_transition = ⟨1, 1⟩ ∧
    exScanMachine.selectTransition.active_state = exTransition1.dest ∧
    transitionFires exScanMachine.parameters exScanMachine.active_state exTransition1 = true := by
  have h := (C3_transition_selection exScanMachine.parameters exScanMachine.active_state
    exScanMachine.transitions.pairList).2.2.1 exScanMachine ⟨1, 1⟩ exTransition1 rfl rfl
  have h2 := ((C3_transition_selection exScanMachine.parameters exScanMachine.active_state
    exScanMachine.transitions.pairList).2.1 ⟨1, 1⟩ exTransition1 rfl).1
  exact ⟨h.1, h.2, h2⟩

theorem Transition.update_transition_time (t : Transition) (dt : ℚ) :
    (t.update dt).transition_time = t.transition_time := rfl

theorem Transition.update_elapsed_min (t : Transition) (dt : ℚ) :
    (t.update dt).elapsed_time = min (t.elapsed_time + dt) t.transition_time := by
  unfold Transition.update
  by_cases hgt : t.elapsed_time + dt > t.transition_time
  · simp only [if_pos hgt]
    exact (min_eq_right (le_of_lt hgt)).symm
  · simp only [if_neg hgt]
    push_neg at hgt
    exact (min_eq_left hgt).symm

theorem Transition.update_blend_eq_div (t : Transition) (dt : ℚ) :
    (t.update dt).blend_factor = (t.update dt).elapsed_time / t.transition_time := rfl

theorem foldl_update_elapsed (dts : List ℚ) : ∀ t : Transition,
    (∀ d ∈ dts, 0 ≤ d) → 0 ≤ t.elapsed_time → t.elapsed_time ≤ t.transition_time →
    (dts.foldl Transition.update t).elapsed_time
        = min (t.elapsed_time + dts.sum) t.transition_time ∧
    (dts.foldl Transition.update t).transition_time = t.transition_time := by
  induction dts with
  | nil =>
      intro t _ h0 hle
      exact ⟨by simp [min_eq_left hle], rfl⟩
  | cons d ds ih =>
      intro t hd h0 hle
      simp only [List.foldl_cons, List.sum_cons]
      have hd0 : 0 ≤ d := hd d (by simp)
      have hds : ∀ x ∈ ds, 0 ≤ x := fun x hx => hd x (by simp [hx])
      have hT : (t.update d).transition_time = t.transition_time := rfl
      have he : (t.update d).elapsed_time = min (t.elapsed_time + d) t.transition_time :=
        t.update_elapsed_min d
      have h0n : 0 ≤ (t.update d).elapsed_time := by
        rw [he]
        exact le_min (add_nonneg h0 hd0) (le_trans h0 hle)
      have hlen : (t.update d).elapsed_time ≤ (t.update d).transition_time := by
        rw [he, hT]
        exact min_le_right _ _
      obtain ⟨ih1, ih2⟩ := ih (t.update d) hds h0n hlen
      rw [ih1, ih2, hT, he]
      refine ⟨?_, rfl⟩
      have hsum : 0 ≤ ds.sum := List.sum_nonneg hds
      rcases le_total (t.elapsed_time + d) t.transition_time with hc | hc
      · rw [min_eq_left hc]
        congr 1
        ring
      · rw [min_eq_right hc, min_eq_right (by linarith), min_eq_right (by linarith)]

theorem foldl_update_blend (dts : List ℚ) : ∀ t : Transition, dts ≠ [] →
    (dts.foldl Transition.update t).blend_factor
      = (dts.foldl Transition.update t).elapsed_time
          / (dts.foldl Transition.update t).transition_time := by
  induction dts with
  | nil => intro t h; exact absurd rfl h
  | cons d ds ih =>
      intro t _
      cases ds with
      | nil => simp only [List.foldl_cons, List.foldl_nil]; rfl
      | cons d2 ds2 =>
          simp only [List.foldl_cons] at *
          exact ih (t.update d) (by simp)

/-- Claim C4: transition progress.  Under the invariant maintained by
`update` (elapsed in `[0, T]`, blend factor `= elapsed / T`) each
`update` with `dt ≥ 0` leaves the blend factor non-decreasing and
re-establishes the invariant; accumulating updates on a fresh transition
for a total time strictly greater than its duration `T > 0` leaves
`elapsed` exactly `T` and the blend factor exactly `1`; and in the tick
in which the advanced active transition reports `is_done`, the machine
resets it (elapsed and blend factor back to `0`) and clears
`active_transition`. -/
theorem C4_transition_clamp_monotone_reset :
    (∀ (t : Transition) (dt : ℚ), 0 < t.transition_time → 0 ≤ dt →
      0 ≤ t.elapsed_time → t.elapsed_time ≤ t.transition_time →
      t.blend_factor = t.elapsed_time / t.transition_time →
      (t.blend_factor ≤ (t.update dt).blend_factor ∧
        0 ≤ (t.update dt).elapsed_time ∧
        (t.update dt).elapsed_time ≤ (t.update dt).transition_time ∧
        (t.update dt).blend_factor
          = (t.update dt).elapsed_time / (t.update dt).transition_time ∧
        (t.update dt).transition_time = t.transition_time)) ∧
    (∀ (name : String) (src dest : Handle) (rule : String) (T : ℚ) (dts : List ℚ),
      0 < T → (∀ d ∈ dts, 0 ≤ d) → T < dts.sum →
      (dts.foldl Transition.update (Transition.new name src dest T rule)).elapsed_time = T ∧
      (dts.foldl Transition.update (Transition.new name src dest T rule)).blend_factor = 1) ∧
    (∀ (m : Machine) (animations : AnimationContainer) (dt : ℚ) (tr : Transition),
      m.active_transition ≠ Handle.NONE →
      m.transitions.tryBorrow m.active_transition = some tr →
      (tr.update dt).is_done = true →
      (m.evaluate_pose animations dt).active_transition = Handle.NONE ∧
      (m.evaluate_pose animations dt).transitions.tryBorrow m.active_transition
        = some (tr.update dt).reset) := by
  refine ⟨?_, ?_, ?_⟩
  · intro t dt hT hdt h0 hle hbf
    have he : (t.update dt).elapsed_time = min (t.elapsed_time + dt) t.transition_time :=
      t.update_elapsed_min dt
    have hmono : t.elapsed_time ≤ (t.update dt).elapsed_time := by
      rw [he]
      exact le_min (by linarith) hle
    refine ⟨?_, le_trans h0 hmono, ?_, t.update_blend_eq_div dt, rfl⟩
    · rw [hbf, t.update_blend_eq_div dt]
      gcongr
    · rw [t.update_transition_time, he]
      exact min_le_right _ _
  · intro name src dest rule T dts hT hd hsum
    have hne : dts ≠ [] := by
      rintro rfl
      simp at hsum
      linarith
    obtain ⟨h1, h2⟩ := foldl_update_elapsed dts (Transition.new name src dest T rule) hd
      (le_refl 0) (le_of_lt hT)
    have helapsed : (dts.foldl Transition.update (Transition.new name src dest T rule)).elapsed_time
        = T := by
      rw [h1]
      show min (0 + dts.sum) T = T
      rw [zero_add]
      exact min_eq_right (le_of_lt hsum)
    refine ⟨helapsed, ?_⟩
    rw [foldl_update_blend dts (Transition.new name src dest T rule) hne, helapsed, h2]
    exact div_self (ne_of_gt hT)
  · intro m animations dt tr hne hbor hdone
    obtain ⟨nodes, states, transitions, fp, act_s, act_t, prms, evs⟩ := m
    simp only at hne hbor ⊢
    unfold Machine.evaluate_pose
    simp only [Machine.selectTransition]
    simp only [if_neg hne, hbor, hdone, Pool.tryBorrow_modifyAt_self, if_pos hne]
    simp [hdone]

/-- Claim C4 witness: the concrete duration-2 transition at elapsed `3/2`
advances monotonically under `update 1`; three updates of `1` on a fresh
duration-2 transition clamp elapsed to exactly `2` with blend factor
exactly `1`; and the concrete machine whose active transition finishes
during the tick comes out with the transition reset and
`active_transition` cleared. -/
theorem C4_transition_clamp_monotone_reset_witness :
    exActiveTransition.blend_factor ≤ (exActiveTransition.update 1).blend_factor ∧
    ([1, 1, 1].foldl Transition.update (Transition.new "w" ⟨5, 5⟩ ⟨6, 6⟩ 2 "r")).elapsed_time
      = 2 ∧
    ([1, 1, 1].foldl Transition.update (Transition.new "w" ⟨5, 5⟩ ⟨6, 6⟩ 2 "r")).blend_factor
      = 1 ∧
    (exActiveMachine.evaluate_pose Pool.empty 1).active_transition = Handle.NONE ∧
    (exActiveMachine.evaluate_pose Pool.empty 1).transitions.tryBorrow
        exActiveMachine.active_transition = some (exActiveTransition.update 1).reset := by
  have h1 := (C4_transition_clamp_monotone_reset.1 exActiveTransition 1
    (by norm_num [exActiveTransition, Transition.new])
    (by norm_num)
    (by norm_num [exActiveTransition, Transition.new])
    (by norm_num [exActiveTransition, Transition.new])
    (by norm_num [exActiveTransition, Transition.new])).1
  have h2 := C4_transition_clamp_monotone_reset.2.1 "w" ⟨5, 5⟩ ⟨6, 6⟩ "r" 2 [1, 1, 1]
    (by norm_num)
    (by intro d hd; simp at hd; subst hd; norm_num)
    (by norm_num)
  have h3 := C4_transition_clamp_monotone_reset.2.2 exActiveMachine Pool.empty 1
    exActiveTransition (by simp [exActiveMachine, Handle.NONE]) rfl
    (by norm_num [Transition.is_done, Transition.update, exActiveTransition, Transition.new])
  exact ⟨h1, h2.1, h2.2, h3.1, h3.2⟩

/-- Claim C10: a transition constructed with duration `0` (elapsed time
and duration both `0`) already reports `is_done` before any update,
because completion is exact equality of elapsed time with the duration;
consequently, in the very tick in which the scan activates such a
transition, the machine resets it and clears `active_transition` again
at the end of the tick. -/
theorem C10_zero_duration_transition_immediately_done :
    (∀ (name : String) (src dest : Handle) (rule : String),
      (Transition.new name src dest 0 rule).is_done = true) ∧
    (∀ (m : Machine) (animations : AnimationContainer) (dt : ℚ)
        (h : Handle) (tr : Transition),
      0 ≤ dt →
      m.active_transition = Handle.NONE →
      h ≠ Handle.NONE →
      findTransition m.parameters m.active_state m.transitions.pairList = some (h, tr) →
      tr.transition_time = 0 → tr.elapsed_time = 0 →
      (m.evaluate_pose animations dt).active_transition = Handle.NONE ∧
      (m.evaluate_pose animations dt).transitions.tryBorrow h = some tr.reset) := by
  constructor
  · intro name src dest rule
    simp [Transition.new, Transition.is_done]
  · intro m animations dt h tr hdt hnone hne hfind htT hte
    have hupd : (tr.update dt).is_done = true := by
      unfold Transition.update Transition.is_done
      simp only [hte, htT, zero_add]
      by_cases hpos : dt > 0
      · simp [hpos]
      · push_neg at hpos
        have hdz : dt = 0 := le_antisymm hpos hdt
        subst hdz
        simp
    have hres : (tr.update dt).reset = tr.reset := rfl
    have hmem : (h, tr) ∈ m.transitions.pairList := by
      unfold findTransition at hfind
      exact List.mem_of_find?_eq_some hfind
    have hbor : m.transitions.tryBorrow h = some tr :=
      Pool.tryBorrow_of_mem_pairList m.transitions h tr hmem
    obtain ⟨nodes, states, transitions, fp, act_s, act_t, prms, evs⟩ := m
    simp only at hnone hfind hbor ⊢
    simp only [Machine.evaluate_pose, Machine.selectTransition, hnone, reduceIte]
    rw [hfind]
    simp only [if_pos hne, hbor, hupd, Pool.tryBorrow_modifyAt_self]
    simp [hupd, hres]

/-- Claim C10 witness: a freshly constructed duration-0 transition is done
before any update, and ticking the concrete machine whose scan activates
the pooled duration-0 transition ends the same tick with the transition
reset and no active transition. -/
theorem C10_zero_duration_transition_immediately_done_witness :
    (Transition.new "n" ⟨1, 1⟩ ⟨2, 1⟩ 0 "r").is_done = true ∧
    (exZeroMachine.evaluate_pose Pool.empty 1).active_transition = Handle.NONE ∧
    (exZeroMachine.evaluate_pose Pool.empty 1).transitions.tryBorrow ⟨0, 1⟩
      = some exZeroTransition.reset := by
  have h2 := C10_zero_duration_transition_immediately_done.2 exZeroMachine Pool.empty 1
    ⟨0, 1⟩ exZeroTransition (by norm_num) rfl (by decide) rfl rfl rfl
  exact ⟨C10_zero_duration_transition_immediately_done.1 "n" ⟨1, 1⟩ ⟨2, 1⟩ "r", h2.1, h2.2⟩
